import Mathlib

/-!
# Verification of the USD ↔ Crypto price comparator (`website.py`)

Shallow embedding of the rate-fetch-and-cache function
(`fetch_usd_exchange_rates`), the per-asset amount formatter
(`format_crypto_amount`) and the request handler (`index`) of the
single-file Flask application, together with theorems settling the
specification's claims about them.

Modelling conventions:
* Python `Decimal` values are modelled as exact scaled integers
  `Dec = { m : Int, e : Nat }` denoting `m / 10 ^ e` (the specification's
  data model calls rates "arbitrary-precision decimal"); the 28-digit
  default context of Python's `decimal` module enters the model only
  through `quantizeOverflows`, the condition under which the real
  `quantize` raises instead of returning the exact value
  `quantDown` computes.  `Decimal` string parsing is modelled for the
  sign/digits/point grammar; the exotic forms of the full grammar
  (exponents, `NaN`, `Infinity`, underscore separators) are not modelled,
  no claim involves them.
* `time.time()` instants are rationals.
* The network is an oracle argument: the outcome the single HTTP request
  would have (`Except` for transport/status/JSON-decode failure, or the
  raw symbol/value string pairs of the response body).
* Python `dict` is an association list with insert-or-overwrite, lookup
  by first (unique) key.
-/

namespace Website

/-- A decimal number `m / 10 ^ e`, the model of Python `Decimal` values
as they occur in the program (sign and magnitude in the mantissa `m`,
`e` fractional digits). -/
structure Dec where
  m : Int
  e : Nat
  deriving DecidableEq, Repr

/-- The rational value denoted by a `Dec`. -/
def Dec.val (d : Dec) : ℚ := (d.m : ℚ) / (10 : ℚ) ^ d.e

/-- Exact product `Decimal * Decimal`. -/
def Dec.mul (a b : Dec) : Dec := ⟨a.m * b.m, a.e + b.e⟩

/-- ASCII uppercase of one character, the model of `str.upper` on the
ASCII ticker strings the program handles. -/
def upperChar (c : Char) : Char :=
  match c with
  | 'a' => 'A' | 'b' => 'B' | 'c' => 'C' | 'd' => 'D' | 'e' => 'E'
  | 'f' => 'F' | 'g' => 'G' | 'h' => 'H' | 'i' => 'I' | 'j' => 'J'
  | 'k' => 'K' | 'l' => 'L' | 'm' => 'M' | 'n' => 'N' | 'o' => 'O'
  | 'p' => 'P' | 'q' => 'Q' | 'r' => 'R' | 's' => 'S' | 't' => 'T'
  | 'u' => 'U' | 'v' => 'V' | 'w' => 'W' | 'x' => 'X' | 'y' => 'Y'
  | 'z' => 'Z' | c => c

/-- Model of Python `str.upper()`. -/
def upperStr (s : String) : String := ⟨s.data.map upperChar⟩

/-- The decimal digit character for `d < 10`. -/
def digitChar : Nat → Char
  | 0 => '0'
  | 1 => '1'
  | 2 => '2'
  | 3 => '3'
  | 4 => '4'
  | 5 => '5'
  | 6 => '6'
  | 7 => '7'
  | 8 => '8'
  | _ => '9'

/-- Digit accumulation with fuel (structural recursion so that renderings
reduce inside the kernel); with `fuel ≥ n` the fuel never runs out. -/
def natCharsAux : Nat → Nat → List Char → List Char
  | 0, _, acc => acc
  | fuel + 1, n, acc =>
    if n < 10 then digitChar n :: acc
    else natCharsAux fuel (n / 10) (digitChar (n % 10) :: acc)

/-- The decimal digits of `n`, most significant first (the rendering of a
nonnegative integer part in Python's fixed-point `f`-format). -/
def natChars (n : Nat) : List Char := natCharsAux (n + 1) n []

/-- The last `p` decimal digits of `n`, zero padded to exactly `p`
characters (the fractional part of Python's fixed-point `f`-format of a
quantized decimal with exponent `-p`). -/
def fracChars : Nat → Nat → List Char
  | _, 0 => []
  | n, p + 1 => fracChars (n / 10) p ++ [digitChar (n % 10)]

/-- Fixed-point rendering `f"{d:f}"` of a quantized decimal whose
coefficient magnitude is `n`, sign is negative iff `neg`, and exponent is
`-p` with `p > 0`. -/
def renderFixed (neg : Bool) (n : Nat) (p : Nat) : List Char :=
  (if neg then ['-'] else []) ++ natChars (n / 10 ^ p) ++ '.' :: fracChars (n % 10 ^ p) p

/-- Model of `amount.quantize(Decimal(10) ** -precision, rounding=ROUND_DOWN)`:
the mantissa of the result at `precision` fractional digits, truncated
toward zero (`Int.tdiv` rounds toward zero, as `ROUND_DOWN` does). -/
def quantDown (d : Dec) (precision : Nat) : Int :=
  if d.e ≤ precision then d.m * (10 : Int) ^ (precision - d.e)
  else d.m.tdiv ((10 : Int) ^ (d.e - precision))

/-- The precision selected by `format_crypto_amount` for an (already
uppercased) symbol: default 8, stablecoins 2, mid-priced assets 4. -/
def precisionFor (symbol : String) : Nat :=
  if symbol ∈ (["USDC", "USDT"] : List String) then 2
  else if symbol ∈ (["XRP", "ADA", "DOGE", "SOL", "LTC"] : List String) then 4
  else 8

/-- Function `format_crypto_amount(symbol, amount)` from `website.py`: uppercase
the symbol, pick the precision, quantize with `ROUND_DOWN`, render in
fixed-point.  The sign of a `ROUND_DOWN` quantize result is the sign of
the operand. -/
def format_crypto_amount (symbol : String) (amount : Dec) : String :=
  let s := upperStr symbol
  let precision := precisionFor s
  let q := quantDown amount precision
  ⟨renderFixed (amount.m < 0) q.natAbs precision⟩

/-- The number of characters after the first `'.'` of a string (0 when
there is none). -/
def fracLen (s : String) : Nat :=
  ((s.data.dropWhile (fun c => c != '.')).tail).length

/-- The number of decimal digits of `n` (its rendered length). -/
def digitCount (n : Nat) : Nat := (natChars n).length

/-- Python's default decimal context precision,
`decimal.getcontext().prec`. -/
def CONTEXT_PREC : Nat := 28

/-- The condition under which the real `amount.quantize(quant,
rounding=ROUND_DOWN)` call raises `decimal.InvalidOperation` under the
default context: the coefficient of the quantized result is longer than
the context precision.  (`quantDown` itself models the exact quantize
value; this predicate marks where Python's bounded context departs from
that exact model.) -/
def quantizeOverflows (d : Dec) (p : Nat) : Bool :=
  CONTEXT_PREC < digitCount (quantDown d p).natAbs

/-! ## Decimal string parsing (`Decimal(price_str)` / `Decimal(value)`) -/

/-- The numeric value of a list of decimal digit characters. -/
def digitsVal (cs : List Char) : Nat :=
  cs.foldl (fun a c => 10 * a + (c.toNat - 48)) 0

/-- Parse an unsigned decimal literal `digits [ '.' digits ]` (either
digit group may be empty, not both). -/
def parseMag (cs : List Char) : Option Dec :=
  let ip := cs.takeWhile (fun c => c != '.')
  match cs.dropWhile (fun c => c != '.') with
  | [] =>
    if !ip.isEmpty && ip.all Char.isDigit then some ⟨(digitsVal ip : Nat), 0⟩ else none
  | _ :: frac =>
    if !(ip ++ frac).isEmpty && ip.all Char.isDigit && frac.all Char.isDigit then
      some ⟨(digitsVal (ip ++ frac) : Nat), frac.length⟩
    else none

/-- Model of the `Decimal` constructor on the stripped strings the
program feeds it: optional sign, digits, optional fractional part.
(The full grammar's exponent, `NaN`, `Infinity` and underscore forms are
not modelled; no claim involves them.) -/
def parseDec (s : String) : Option Dec :=
  match s.data with
  | '-' :: rest => (parseMag rest).map (fun d => ⟨-d.m, d.e⟩)
  | '+' :: rest => parseMag rest
  | cs => parseMag cs

/-- Lines 199–202 of `website.py`: `usd_price = Decimal(price_str)`,
then `raise InvalidOperation` when `usd_price < 0`.  `none` is the
caught-exception (validation failure) outcome. -/
def parsePrice (s : String) : Option Dec :=
  match parseDec s with
  | none => none
  | some d => if d.m < 0 then none else some d

/-! ## The rate cache (`fetch_usd_exchange_rates`) -/

/-- The process-wide `_rates_cache` slot: a fetch timestamp and the
parsed rate map (a `dict`, modelled as a unique-key association list). -/
structure Cache where
  timestamp : ℚ
  rates : List (String × Dec)
  deriving DecidableEq

/-- Initial slot value `_rates_cache = {"timestamp": 0.0, "rates": {}}`. -/
def initialCache : Cache := ⟨0, []⟩

/-- Constant `_CACHE_TTL_SECONDS = 60`. -/
def CACHE_TTL_SECONDS : ℚ := 60

/-- Python `dict` assignment `d[k] = v`: overwrite the existing key or append. -/
def dictInsert (d : List (String × Dec)) (k : String) (v : Dec) : List (String × Dec) :=
  match d with
  | [] => [(k, v)]
  | (k', v') :: rest => if k' = k then (k, v) :: rest else (k', v') :: dictInsert rest k v

/-- Lines 49–55: build the rates dict, uppercasing symbols and silently
skipping values `Decimal` cannot parse. -/
def parseRawRates (raw : List (String × String)) : List (String × Dec) :=
  raw.foldl
    (fun acc kv =>
      match parseDec kv.2 with
      | some d => dictInsert acc (upperStr kv.1) d
      | none => acc)
    []

/-- The outcome the single outbound HTTP request would have, were it
made: `.error` for a transport error, non-success status
(`raise_for_status`) or a JSON-decode failure, `.ok` with the raw
symbol/value string pairs of `data["data"]["rates"]` otherwise. -/
abbrev FetchResp : Type := Except String (List (String × String))

deriving instance DecidableEq for Except

/-- Function `fetch_usd_exchange_rates()` from `website.py`, with the current
time and the network outcome as oracle arguments and the cache slot
passed explicitly.  Returns the result (or the propagated exception),
the new cache state, and the number of network calls issued. -/
def fetch_usd_exchange_rates (now : ℚ) (resp : FetchResp) (cache : Cache) :
    Except String (List (String × Dec)) × Cache × Nat :=
  if now - cache.timestamp < CACHE_TTL_SECONDS then
    (.ok cache.rates, cache, 0)
  else
    match resp with
    | .error e => (.error e, cache, 1)
    | .ok raw =>
      let rates := parseRawRates raw
      (.ok rates, ⟨now, rates⟩, 1)

/-! ## The request handler (`index`) -/

/-- Constant `SUPPORTED_CRYPTOS` from `website.py`. -/
def SUPPORTED_CRYPTOS : List String :=
  ["BTC", "ETH", "SOL", "USDC", "USDT", "XRP", "ADA", "DOGE", "LTC"]

/-- Python `str.strip()` whitespace (ASCII subset). -/
def isPySpace (c : Char) : Bool :=
  c == ' ' || c == '\t' || c == '\n' || c == '\r' || c == '\x0b' || c == '\x0c'

/-- Python `str.strip()`. -/
def strip (s : String) : String :=
  ⟨((s.data.dropWhile isPySpace).reverse.dropWhile isPySpace).reverse⟩

/-- Lexicographic code-point comparison of strings as lists of
characters (Python's `<=` on `str`, used by `list.sort`). -/
def listCharLe : List Char → List Char → Bool
  | [], _ => true
  | _ :: _, [] => false
  | a :: as, b :: bs =>
    if a.toNat < b.toNat then true
    else if b.toNat < a.toNat then false
    else listCharLe as bs

/-- A results-table row (lines 217–223). -/
structure Row where
  symbol : String
  usd_rate : String
  item_amount : String
  deriving DecidableEq, Repr

/-- The data handed to the template: error text, result rows, echoed
form values and the selected symbol list. -/
structure Page where
  error : Option String
  results : List Row
  item : String
  price : String
  selected_symbols : List String
  deriving DecidableEq

/-- A POST form body: `item`, `price`, and the `cryptos` multi-select. -/
structure FormInput where
  item : String
  price : String
  cryptos : List String
  deriving DecidableEq

/-- Insert a row into a sorted-by-symbol list, before the first row it
does not come strictly after. -/
def insertRow (r : Row) : List Row → List Row
  | [] => [r]
  | x :: xs => if listCharLe r.symbol.data x.symbol.data then r :: x :: xs
    else x :: insertRow r xs

/-- Line 226, `results.sort(key=lambda r: r["symbol"])`: a stable
ascending sort by symbol (Python's sort is stable; so is this insertion
sort, elements are inserted from the right). -/
def sortRows : List Row → List Row
  | [] => []
  | x :: xs => insertRow x (sortRows xs)

/-- The user-facing validation message (line 204). -/
def validationMsg : String := "Please enter a valid non-negative USD price."

/-- Line 209: the fetch-failure message interpolating the exception. -/
def fetchErrMsg (e : String) : String := "Failed to fetch live rates: " ++ e

/-- The `index()` request handler from `website.py`.  `form = none`
models a GET request.  The outer `Except` carries any exception the
handler body would fail to catch (none exists: every branch is `.ok`);
the payload is the rendered page data, the cache state after the
request, and the number of network calls issued. -/
def index (form : Option FormInput) (now : ℚ) (resp : FetchResp) (cache : Cache) :
    Except String (Page × Cache × Nat) :=
  match form with
  | none => .ok (⟨none, [], "", "", SUPPORTED_CRYPTOS⟩, cache, 0)
  | some f =>
    let item := strip f.item
    let price_str := strip f.price
    let selected := if f.cryptos.isEmpty then SUPPORTED_CRYPTOS else f.cryptos.map upperStr
    match parsePrice price_str with
    | none => .ok (⟨some validationMsg, [], item, price_str, selected⟩, cache, 0)
    | some usd_price =>
      match fetch_usd_exchange_rates now resp cache with
      | (.error e, cache', n) =>
        .ok (⟨some (fetchErrMsg e), [], item, price_str, selected⟩, cache', n)
      | (.ok rates, cache', n) =>
        let rows := selected.filterMap (fun sym =>
          (List.lookup sym rates).map (fun rate =>
            (⟨sym, format_crypto_amount sym rate,
              format_crypto_amount sym (Dec.mul usd_price rate)⟩ : Row)))
        .ok (⟨none, sortRows rows, item, price_str, selected⟩, cache', n)

/-! ## Helper lemmas -/

/-- The 26 uppercase ASCII letters. -/
def ucList : List Char :=
  ['A','B','C','D','E','F','G','H','I','J','K','L','M',
   'N','O','P','Q','R','S','T','U','V','W','X','Y','Z']

lemma upperChar_eq_or (c : Char) : upperChar c = c ∨ upperChar c ∈ ucList := by
  unfold upperChar
  split <;> first | (left; rfl) | (right; decide)

lemma upperChar_idem (c : Char) : upperChar (upperChar c) = upperChar c := by
  rcases upperChar_eq_or c with h | h
  · rw [h]; exact h
  · have huc : ∀ d ∈ ucList, upperChar d = d := by decide
    rw [huc _ h]

lemma upperList_idem (l : List Char) :
    (l.map upperChar).map upperChar = l.map upperChar := by
  induction l with
  | nil => rfl
  | cons c l ih => simp only [List.map_cons, upperChar_idem, ih]

lemma upperStr_idem (s : String) : upperStr (upperStr s) = upperStr s :=
  congrArg String.mk (upperList_idem s.data)

lemma digitChar_ne_dot (d : Nat) : digitChar d ≠ '.' := by
  unfold digitChar
  split <;> decide

lemma fracChars_length (p : Nat) : ∀ n : Nat, (fracChars n p).length = p := by
  induction p with
  | zero => intro n; rfl
  | succ p ih => intro n; simp [fracChars, ih]

lemma natCharsAux_no_dot : ∀ (fuel n : Nat) (acc : List Char),
    '.' ∉ acc → '.' ∉ natCharsAux fuel n acc := by
  intro fuel
  induction fuel with
  | zero => intro n acc h; simpa [natCharsAux] using h
  | succ fuel ih =>
    intro n acc h
    unfold natCharsAux
    split
    · intro hmem
      rcases List.mem_cons.1 hmem with he | hacc
      · exact digitChar_ne_dot n he.symm
      · exact h hacc
    · refine ih _ _ ?_
      intro hmem
      rcases List.mem_cons.1 hmem with he | hacc
      · exact digitChar_ne_dot _ he.symm
      · exact h hacc

lemma natChars_no_dot (n : Nat) : '.' ∉ natChars n :=
  natCharsAux_no_dot _ _ _ (by simp)

lemma dropWhile_to_dot (l₁ l₂ : List Char) (h : '.' ∉ l₁) :
    (l₁ ++ '.' :: l₂).dropWhile (fun c => c != '.') = '.' :: l₂ := by
  induction l₁ with
  | nil => simp [List.dropWhile]
  | cons a l ih =>
    have ha : a ≠ '.' := fun e => h (e ▸ List.mem_cons_self a l)
    rw [List.cons_append, List.dropWhile_cons]
    simp only [bne_iff_ne, ne_eq, ha, not_false_eq_true, if_true]
    exact ih (fun hm => h (List.mem_cons_of_mem a hm))

lemma fracLen_renderFixed (neg : Bool) (n p : Nat) :
    fracLen ⟨renderFixed neg n p⟩ = p := by
  unfold fracLen renderFixed
  have h1 : '.' ∉ (if neg then ['-'] else []) ++ natChars (n / 10 ^ p) := by
    intro hm
    rcases List.mem_append.1 hm with hs | hn
    · cases neg <;> simp at hs
    · exact natChars_no_dot _ hn
  show (((if neg then ['-'] else []) ++ natChars (n / 10 ^ p) ++
      '.' :: fracChars (n % 10 ^ p) p).dropWhile (fun c => c != '.')).tail.length = p
  rw [dropWhile_to_dot _ _ h1]
  simp [fracChars_length]

lemma fracLen_format (sym : String) (a : Dec) :
    fracLen (format_crypto_amount sym a) = precisionFor (upperStr sym) :=
  fracLen_renderFixed _ _ _

lemma digitChar_toNat (d : Nat) (h : d < 10) : (digitChar d).toNat - 48 = d := by
  interval_cases d <;> rfl

lemma digitChar_isDigit (d : Nat) : (digitChar d).isDigit = true := by
  unfold digitChar
  split <;> decide

lemma digitsVal_foldl (l : List Char) :
    ∀ a : Nat, l.foldl (fun a c => 10 * a + (c.toNat - 48)) a =
      a * 10 ^ l.length + l.foldl (fun a c => 10 * a + (c.toNat - 48)) 0 := by
  induction l with
  | nil => intro a; simp
  | cons c l ih =>
    intro a
    simp only [List.foldl_cons, List.length_cons]
    rw [ih (10 * a + (c.toNat - 48)), ih (10 * 0 + (c.toNat - 48))]
    ring

lemma digitsVal_cons (c : Char) (l : List Char) :
    digitsVal (c :: l) = (c.toNat - 48) * 10 ^ l.length + digitsVal l := by
  unfold digitsVal
  simp only [List.foldl_cons]
  rw [digitsVal_foldl]
  ring

lemma digitsVal_append (l₁ l₂ : List Char) :
    digitsVal (l₁ ++ l₂) = digitsVal l₁ * 10 ^ l₂.length + digitsVal l₂ := by
  unfold digitsVal
  rw [List.foldl_append]
  exact digitsVal_foldl l₂ _

lemma mod_succ_pow (n p : Nat) :
    n % 10 ^ (p + 1) = 10 * (n / 10 % 10 ^ p) + n % 10 := by
  have hp : 0 < 10 ^ p := Nat.pos_pow_of_pos p (by norm_num)
  have ha : n / 10 % 10 ^ p < 10 ^ p := Nat.mod_lt _ hp
  have hb : n % 10 < 10 := Nat.mod_lt _ (by norm_num)
  have hsplit : n = 10 * 10 ^ p * (n / 10 / 10 ^ p) + (10 * (n / 10 % 10 ^ p) + n % 10) := by
    conv_lhs => rw [← Nat.div_add_mod n 10, ← Nat.div_add_mod (n / 10) (10 ^ p)]
    ring
  calc n % 10 ^ (p + 1)
      = (10 * 10 ^ p * (n / 10 / 10 ^ p) + (10 * (n / 10 % 10 ^ p) + n % 10)) % (10 * 10 ^ p) := by
        rw [← hsplit, pow_succ']
    _ = (10 * (n / 10 % 10 ^ p) + n % 10) % (10 * 10 ^ p) := by rw [Nat.mul_add_mod]
    _ = 10 * (n / 10 % 10 ^ p) + n % 10 := Nat.mod_eq_of_lt (by omega)

lemma digitsVal_singleton (c : Char) : digitsVal [c] = c.toNat - 48 := by
  have h := digitsVal_cons c []
  simp [digitsVal] at h
  simp [digitsVal, h]

lemma digitsVal_fracChars (p : Nat) : ∀ n : Nat, digitsVal (fracChars n p) = n % 10 ^ p := by
  induction p with
  | zero => intro n; simp [fracChars, digitsVal, Nat.mod_one]
  | succ p ih =>
    intro n
    show digitsVal (fracChars (n / 10) p ++ [digitChar (n % 10)]) = _
    rw [digitsVal_append, ih, digitsVal_singleton,
      digitChar_toNat _ (Nat.mod_lt _ (by norm_num)), mod_succ_pow]
    simp only [List.length_cons, List.length_nil, pow_one]
    ring

lemma natCharsAux_val : ∀ (fuel n : Nat) (acc : List Char), n < fuel →
    digitsVal (natCharsAux fuel n acc) = n * 10 ^ acc.length + digitsVal acc := by
  intro fuel
  induction fuel with
  | zero => intro n acc h; omega
  | succ fuel ih =>
    intro n acc h
    unfold natCharsAux
    split
    · rw [digitsVal_cons, digitChar_toNat _ (by assumption)]
    · have hn10 : ¬ n < 10 := by assumption
      have hrec : n / 10 < fuel :=
        lt_of_lt_of_le (Nat.div_lt_self (by omega) (by omega)) (by omega)
      rw [ih _ _ hrec, digitsVal_cons, digitChar_toNat _ (Nat.mod_lt _ (by norm_num)),
        List.length_cons, pow_succ]
      have : 10 * (n / 10) + n % 10 = n := by omega
      calc n / 10 * (10 ^ acc.length * 10) +
            ((n % 10) * 10 ^ acc.length + digitsVal acc)
          = (10 * (n / 10) + n % 10) * 10 ^ acc.length + digitsVal acc := by ring
        _ = n * 10 ^ acc.length + digitsVal acc := by rw [this]

lemma digitsVal_natChars (n : Nat) : digitsVal (natChars n) = n := by
  have h := natCharsAux_val (n + 1) n [] (by omega)
  simpa [natChars, digitsVal] using h

lemma natCharsAux_digits : ∀ (fuel n : Nat) (acc : List Char),
    (∀ c ∈ acc, c.isDigit = true) → ∀ c ∈ natCharsAux fuel n acc, c.isDigit = true := by
  intro fuel
  induction fuel with
  | zero => intro n acc h; simpa [natCharsAux] using h
  | succ fuel ih =>
    intro n acc h
    unfold natCharsAux
    split
    · intro c hc
      rcases List.mem_cons.1 hc with rfl | hc
      · exact digitChar_isDigit n
      · exact h c hc
    · refine ih _ _ ?_
      intro c hc
      rcases List.mem_cons.1 hc with rfl | hc
      · exact digitChar_isDigit _
      · exact h c hc

lemma natChars_digits (n : Nat) : ∀ c ∈ natChars n, c.isDigit = true :=
  natCharsAux_digits _ _ _ (by simp)

lemma fracChars_digits (p : Nat) : ∀ (n : Nat), ∀ c ∈ fracChars n p, c.isDigit = true := by
  induction p with
  | zero => intro n c hc; simp [fracChars] at hc
  | succ p ih =>
    intro n c hc
    rcases List.mem_append.1 hc with hc | hc
    · exact ih _ c hc
    · rcases List.mem_singleton.1 hc with rfl
      exact digitChar_isDigit _

lemma natCharsAux_ne_nil : ∀ (fuel n : Nat) (acc : List Char),
    acc ≠ [] → natCharsAux fuel n acc ≠ [] := by
  intro fuel
  induction fuel with
  | zero => intro n acc h; simpa [natCharsAux] using h
  | succ fuel ih =>
    intro n acc h
    unfold natCharsAux
    split
    · simp
    · exact ih _ _ (by simp)

lemma natChars_ne_nil (n : Nat) : natChars n ≠ [] := by
  unfold natChars natCharsAux
  split
  · simp
  · exact natCharsAux_ne_nil _ _ _ (by simp)

lemma takeWhile_to_dot (l₁ l₂ : List Char) (h : '.' ∉ l₁) :
    (l₁ ++ '.' :: l₂).takeWhile (fun c => c != '.') = l₁ := by
  induction l₁ with
  | nil => simp [List.takeWhile]
  | cons a l ih =>
    have ha : a ≠ '.' := fun e => h (e ▸ List.mem_cons_self a l)
    rw [List.cons_append, List.takeWhile_cons]
    simp only [bne_iff_ne, ne_eq, ha, not_false_eq_true, if_true]
    rw [ih (fun hm => h (List.mem_cons_of_mem a hm))]

lemma parseMag_render (x r p : Nat) (hr : r < 10 ^ p) :
    parseMag (natChars x ++ '.' :: fracChars r p) =
      some ⟨((x * 10 ^ p + r : Nat) : Int), p⟩ := by
  unfold parseMag
  rw [takeWhile_to_dot _ _ (natChars_no_dot x), dropWhile_to_dot _ _ (natChars_no_dot x)]
  have hne : (natChars x ++ fracChars r p).isEmpty = false :=
    List.isEmpty_eq_false.2 (by simp [natChars_ne_nil x])
  have hd1 : (natChars x).all Char.isDigit = true := List.all_eq_true.2 (natChars_digits x)
  have hd2 : (fracChars r p).all Char.isDigit = true :=
    List.all_eq_true.2 (fracChars_digits p r)
  simp only [hne, hd1, hd2, Bool.not_false, Bool.and_self, Bool.true_and, if_true]
  rw [digitsVal_append, digitsVal_natChars, digitsVal_fracChars, fracChars_length,
    Nat.mod_eq_of_lt hr]

lemma isDigit_ne_minus {c : Char} (h : c.isDigit = true) : c ≠ '-' :=
  fun e => absurd (e ▸ h) (by decide)

lemma isDigit_ne_plus {c : Char} (h : c.isDigit = true) : c ≠ '+' :=
  fun e => absurd (e ▸ h) (by decide)

lemma parseDec_not_sign (c : Char) (rest : List Char) (h1 : c ≠ '-') (h2 : c ≠ '+') :
    parseDec ⟨c :: rest⟩ = parseMag (c :: rest) := by
  unfold parseDec
  split
  · next heq => exact absurd (List.head_eq_of_cons_eq heq) h1
  · next heq => exact absurd (List.head_eq_of_cons_eq heq) h2
  · rfl

lemma quantDown_nonneg (a : Dec) (p : Nat) (h : 0 ≤ a.m) : 0 ≤ quantDown a p := by
  unfold quantDown
  split
  · positivity
  · exact Int.tdiv_nonneg h (by positivity)

lemma parseDec_format (sym : String) (a : Dec) (h : 0 ≤ a.m) :
    parseDec (format_crypto_amount sym a) =
      some ⟨(((quantDown a (precisionFor (upperStr sym))).natAbs : Nat) : Int),
        precisionFor (upperStr sym)⟩ := by
  have hneg : decide (a.m < 0) = false := decide_eq_false (not_lt.2 h)
  have hfmt : format_crypto_amount sym a =
      ⟨renderFixed false (quantDown a (precisionFor (upperStr sym))).natAbs
        (precisionFor (upperStr sym))⟩ := by
    unfold format_crypto_amount
    rw [hneg]
  rw [hfmt]
  set p := precisionFor (upperStr sym)
  set q := (quantDown a p).natAbs
  have hrender : renderFixed false q p =
      natChars (q / 10 ^ p) ++ '.' :: fracChars (q % 10 ^ p) p := by
    unfold renderFixed
    simp
  obtain ⟨c, cs, hcons⟩ := List.exists_cons_of_ne_nil (natChars_ne_nil (q / 10 ^ p))
  have hcdig : c.isDigit = true := natChars_digits _ c (hcons ▸ List.mem_cons_self c cs)
  have hlist : renderFixed false q p = c :: (cs ++ '.' :: fracChars (q % 10 ^ p) p) := by
    rw [hrender, hcons, List.cons_append]
  rw [hlist, parseDec_not_sign c _ (isDigit_ne_minus hcdig) (isDigit_ne_plus hcdig),
    ← List.cons_append, ← hcons, parseMag_render _ _ _ (Nat.mod_lt _ (by positivity))]
  rw [Nat.div_add_mod' q (10 ^ p)]

lemma Dec.val_nonneg_iff (a : Dec) : 0 ≤ a.val ↔ 0 ≤ a.m := by
  unfold Dec.val
  constructor
  · intro h
    by_contra hneg
    push_neg at hneg
    have hm : (a.m : ℚ) < 0 := by exact_mod_cast hneg
    have : (a.m : ℚ) / 10 ^ a.e < 0 := div_neg_of_neg_of_pos hm (by positivity)
    linarith
  · intro h
    have hm : (0:ℚ) ≤ (a.m : ℚ) := by exact_mod_cast h
    exact div_nonneg hm (by positivity)

lemma quantDown_le (a : Dec) (p : Nat) (h : 0 ≤ a.m) :
    ((quantDown a p : Int) : ℚ) / 10 ^ p ≤ a.val := by
  unfold quantDown Dec.val
  split
  · next hle =>
    apply le_of_eq
    have hpe : (10:ℚ) ^ p = 10 ^ (p - a.e) * 10 ^ a.e := by
      rw [← pow_add]
      congr 1
      omega
    rw [hpe]
    push_cast
    field_simp
    ring
  · next hgt =>
    have hk : (0:Int) < (10:Int) ^ (a.e - p) := by positivity
    set t := a.m.tdiv ((10:Int) ^ (a.e - p)) with ht
    have htd : t * (10:Int) ^ (a.e - p) ≤ a.m := by
      rw [ht, Int.tdiv_eq_ediv h (le_of_lt hk)]
      exact Int.ediv_mul_le a.m (ne_of_gt hk)
    have hpe : (10:ℚ) ^ a.e = 10 ^ (a.e - p) * 10 ^ p := by
      rw [← pow_add]
      congr 1
      omega
    rw [div_le_div_iff₀ (by positivity) (by positivity)]
    calc (t : ℚ) * 10 ^ a.e
        = ((t * (10:Int) ^ (a.e - p) : Int) : ℚ) * 10 ^ p := by push_cast; rw [hpe]; ring
      _ ≤ (a.m : ℚ) * 10 ^ p :=
        mul_le_mul_of_nonneg_right (by exact_mod_cast htd) (by positivity)

/-! ## Claim theorems -/

/-- Claim C1: For every amount, `format_crypto_amount` applied to a symbol in
{USDC, USDT} produces a string with exactly 2 digits after the decimal
point; applied to a symbol in {XRP, ADA, DOGE, SOL, LTC}, exactly 4; and
applied to any other (uppercase-ticker) symbol, including BTC and ETH,
exactly 8. -/
theorem claim_format_precision (sym : String) (a : Dec) :
    (sym ∈ (["USDC", "USDT"] : List String) → fracLen (format_crypto_amount sym a) = 2) ∧
    (sym ∈ (["XRP", "ADA", "DOGE", "SOL", "LTC"] : List String) →
      fracLen (format_crypto_amount sym a) = 4) ∧
    (upperStr sym = sym → sym ∉ (["USDC", "USDT"] : List String) →
      sym ∉ (["XRP", "ADA", "DOGE", "SOL", "LTC"] : List String) →
      fracLen (format_crypto_amount sym a) = 8) := by
  refine ⟨?_, ?_, ?_⟩
  · intro h
    rw [fracLen_format]
    fin_cases h <;> rfl
  · intro h
    rw [fracLen_format]
    fin_cases h <;> rfl
  · intro hu h2 h4
    rw [fracLen_format, hu]
    unfold precisionFor
    rw [if_neg h2, if_neg h4]

/-- Witness for C1 at concrete inputs (amount 12.345). -/
theorem claim_format_precision_witness :
    ("USDC" ∈ (["USDC", "USDT"] : List String) ∧
      fracLen (format_crypto_amount "USDC" ⟨12345, 3⟩) = 2) ∧
    ("XRP" ∈ (["XRP", "ADA", "DOGE", "SOL", "LTC"] : List String) ∧
      fracLen (format_crypto_amount "XRP" ⟨12345, 3⟩) = 4) ∧
    (upperStr "BTC" = "BTC" ∧ fracLen (format_crypto_amount "BTC" ⟨12345, 3⟩) = 8) :=
  ⟨⟨by decide, (claim_format_precision "USDC" ⟨12345, 3⟩).1 (by decide)⟩,
   ⟨by decide, (claim_format_precision "XRP" ⟨12345, 3⟩).2.1 (by decide)⟩,
   ⟨by decide, (claim_format_precision "BTC" ⟨12345, 3⟩).2.2 (by decide)
     (by decide) (by decide)⟩⟩

/-- Claim C2: `format_crypto_amount` never rounds up: for every symbol and
every non-negative amount, the output string parses back as a decimal
whose value is at most the input amount (digits beyond the precision are
truncated toward zero); in particular BTC formatting of 0.123456789
yields "0.12345678". -/
theorem claim_format_truncates :
    (∀ (sym : String) (a : Dec), 0 ≤ a.val →
      ∃ d : Dec, parseDec (format_crypto_amount sym a) = some d ∧ d.val ≤ a.val) ∧
    format_crypto_amount "BTC" ⟨123456789, 9⟩ = "0.12345678" := by
  constructor
  · intro sym a ha
    have hm : 0 ≤ a.m := (Dec.val_nonneg_iff a).1 ha
    set p := precisionFor (upperStr sym) with hp
    refine ⟨⟨(((quantDown a p).natAbs : Nat) : Int), p⟩, parseDec_format sym a hm, ?_⟩
    have hq : (0:Int) ≤ quantDown a p := quantDown_nonneg a p hm
    have habs : (((quantDown a p).natAbs : Nat) : Int) = quantDown a p :=
      Int.natAbs_of_nonneg hq
    show ((((quantDown a p).natAbs : Nat) : Int) : ℚ) / 10 ^ p ≤ a.val
    rw [habs]
    exact quantDown_le a p hm
  · rfl

/-- Witness for C2: the universally quantified part applied at
symbol "BTC", amount 1.999999995. -/
theorem claim_format_truncates_witness :
    (0:ℚ) ≤ (Dec.mk 1999999995 9).val ∧
    ∃ d : Dec, parseDec (format_crypto_amount "BTC" ⟨1999999995, 9⟩) = some d ∧
      d.val ≤ (Dec.mk 1999999995 9).val :=
  ⟨by norm_num [Dec.val],
   claim_format_truncates.1 "BTC" ⟨1999999995, 9⟩ (by norm_num [Dec.val])⟩

/-- Counterexample to claim C3 as stated: The claim's "hence two calls within 60 seconds
of each other (with no intervening fetch failure) return identical rate
maps" is false at a concrete input: with a snapshot fetched at time 0
holding BTC → 1, a call at t₁ = 59 is a cache hit (0 network calls,
returning the old map), and a second call at t₂ = 80 — only 21 seconds
after the first, with no fetch failure anywhere — is past the snapshot's
TTL, refreshes, and returns a different map. -/
theorem claim_cache_within60_cex :
    ((80:ℚ) - 59 < 60) ∧
    fetch_usd_exchange_rates 59 (.ok []) ⟨0, [("BTC", ⟨1, 0⟩)]⟩ =
      (.ok [("BTC", ⟨1, 0⟩)], ⟨0, [("BTC", ⟨1, 0⟩)]⟩, 0) ∧
    fetch_usd_exchange_rates 80 (.ok [("BTC", "2")]) ⟨0, [("BTC", ⟨1, 0⟩)]⟩ =
      (.ok [("BTC", ⟨2, 0⟩)], ⟨80, [("BTC", ⟨2, 0⟩)]⟩, 1) ∧
    ([("BTC", (⟨2, 0⟩ : Dec))] : List (String × Dec)) ≠ [("BTC", (⟨1, 0⟩ : Dec))] := by
  refine ⟨by norm_num, ?_, ?_, by decide⟩
  · unfold fetch_usd_exchange_rates
    rw [if_pos (by norm_num [CACHE_TTL_SECONDS])]
  · unfold fetch_usd_exchange_rates
    rw [if_neg (by norm_num [CACHE_TTL_SECONDS])]
    rfl

/-- Claim C3 (amended): If the cache holds a snapshot fetched less than 60
seconds before the current time, `fetch_usd_exchange_rates` returns that
snapshot's rate map unchanged and issues no network call; hence after a
call that performs a successful fetch at time t₁, any second call within
60 seconds of t₁ returns the identical rate map with no further network
call (so exactly one network call between the two). -/
theorem claim_cache_fresh_hit :
    (∀ (now : ℚ) (resp : FetchResp) (c : Cache), now - c.timestamp < 60 →
      fetch_usd_exchange_rates now resp c = (.ok c.rates, c, 0)) ∧
    (∀ (t₁ t₂ : ℚ) (resp₁ resp₂ : FetchResp) (c c₁ : Cache) (M : List (String × Dec)),
      fetch_usd_exchange_rates t₁ resp₁ c = (.ok M, c₁, 1) →
      t₁ ≤ t₂ → t₂ < t₁ + 60 →
      fetch_usd_exchange_rates t₂ resp₂ c₁ = (.ok M, c₁, 0)) := by
  constructor
  · intro now resp c h
    unfold fetch_usd_exchange_rates
    rw [if_pos (by simpa [CACHE_TTL_SECONDS] using h)]
  · intro t₁ t₂ resp₁ resp₂ c c₁ M h h12 h60
    by_cases hfresh : t₁ - c.timestamp < CACHE_TTL_SECONDS
    · unfold fetch_usd_exchange_rates at h
      rw [if_pos hfresh] at h
      simp [Prod.ext_iff] at h
    · unfold fetch_usd_exchange_rates at h
      rw [if_neg hfresh] at h
      cases resp₁ with
      | error e => simp [Prod.ext_iff] at h
      | ok raw =>
        simp only [Prod.ext_iff, Except.ok.injEq] at h
        obtain ⟨hM, hc, -⟩ := h
        subst hM
        subst hc
        unfold fetch_usd_exchange_rates
        rw [if_pos (by simp only [CACHE_TTL_SECONDS]; linarith)]

/-- Witness for C3 (amended): the cache-hit part at time 0 on the initial
cache; the two-call part with a successful fetch at t₁ = 100 followed by a
call at t₂ = 130 whose own network outcome would even be a failure. -/
theorem claim_cache_fresh_hit_witness :
    ((0:ℚ) - initialCache.timestamp < 60 ∧
      fetch_usd_exchange_rates 0 (.ok []) initialCache = (.ok initialCache.rates, initialCache, 0)) ∧
    (fetch_usd_exchange_rates 100 (.ok [("BTC", "2")]) initialCache =
        (.ok [("BTC", ⟨2, 0⟩)], ⟨100, [("BTC", ⟨2, 0⟩)]⟩, 1) ∧
      (100:ℚ) ≤ 130 ∧ (130:ℚ) < 100 + 60 ∧
      fetch_usd_exchange_rates 130 (.error "boom") ⟨100, [("BTC", ⟨2, 0⟩)]⟩ =
        (.ok [("BTC", ⟨2, 0⟩)], ⟨100, [("BTC", ⟨2, 0⟩)]⟩, 0)) := by
  have h1 : fetch_usd_exchange_rates 100 (.ok [("BTC", "2")]) initialCache =
      (.ok [("BTC", ⟨2, 0⟩)], ⟨100, [("BTC", ⟨2, 0⟩)]⟩, 1) := by
    unfold fetch_usd_exchange_rates
    rw [if_neg (by norm_num [initialCache, CACHE_TTL_SECONDS])]
    rfl
  exact ⟨⟨by norm_num [initialCache],
    claim_cache_fresh_hit.1 0 (.ok []) initialCache (by norm_num [initialCache])⟩,
   h1, by norm_num, by norm_num,
   claim_cache_fresh_hit.2 100 130 (.ok [("BTC", "2")]) (.error "boom") initialCache
     ⟨100, [("BTC", ⟨2, 0⟩)]⟩ [("BTC", ⟨2, 0⟩)] h1 (by norm_num) (by norm_num)⟩

/-- Claim C4: When `fetch_usd_exchange_rates` is called more than 60 seconds
after the cached snapshot's timestamp (the initial no-snapshot state has
timestamp 0, so any realistic clock value is such a call) and the network
request succeeds, it issues exactly one network call, replaces the
process-wide snapshot with the new timestamp and parsed rate map, and
returns that map. -/
theorem claim_cache_stale_fetch (now : ℚ) (resp : FetchResp) (c : Cache)
    (raw : List (String × String)) (hstale : 60 < now - c.timestamp)
    (hresp : resp = .ok raw) :
    fetch_usd_exchange_rates now resp c =
      (.ok (parseRawRates raw), ⟨now, parseRawRates raw⟩, 1) := by
  subst hresp
  unfold fetch_usd_exchange_rates
  rw [if_neg (by simp only [CACHE_TTL_SECONDS, not_lt]; linarith)]

/-- Witness for C4: fetching at time 100 from the initial cache with a
one-entry response body. -/
theorem claim_cache_stale_fetch_witness :
    (60:ℚ) < 100 - initialCache.timestamp ∧
    fetch_usd_exchange_rates 100 (.ok [("btc", "0.5")]) initialCache =
      (.ok (parseRawRates [("btc", "0.5")]), ⟨100, parseRawRates [("btc", "0.5")]⟩, 1) :=
  ⟨by norm_num [initialCache],
   claim_cache_stale_fetch 100 (.ok [("btc", "0.5")]) initialCache [("btc", "0.5")]
     (by norm_num [initialCache]) rfl⟩

/-- Claim C6: When the cache is stale and the fetch fails, the function
raises the error after its single network call and leaves the cached
snapshot (timestamp and rate map) unchanged; consequently any later call
(at or after `now`) again attempts a fresh fetch — the failure is not
cached. -/
theorem claim_fetch_failure_not_cached (now : ℚ) (resp : FetchResp) (c : Cache)
    (e : String) (hstale : ¬ now - c.timestamp < 60) (hresp : resp = .error e) :
    fetch_usd_exchange_rates now resp c = (.error e, c, 1) ∧
    (∀ (t₂ : ℚ) (resp₂ : FetchResp), now ≤ t₂ →
      (fetch_usd_exchange_rates t₂ resp₂ c).2.2 = 1) := by
  constructor
  · subst hresp
    unfold fetch_usd_exchange_rates
    rw [if_neg (by simpa [CACHE_TTL_SECONDS] using hstale)]
  · intro t₂ resp₂ hle
    have hstale₂ : ¬ t₂ - c.timestamp < CACHE_TTL_SECONDS := by
      simp only [CACHE_TTL_SECONDS, not_lt] at hstale ⊢
      linarith
    unfold fetch_usd_exchange_rates
    rw [if_neg hstale₂]
    cases resp₂ <;> rfl

/-- Witness for C6: a failing fetch at time 100 on the initial cache,
followed by a retry at time 101. -/
theorem claim_fetch_failure_not_cached_witness :
    (¬ (100:ℚ) - initialCache.timestamp < 60) ∧
    fetch_usd_exchange_rates 100 (.error "boom") initialCache = (.error "boom", initialCache, 1) ∧
    (100:ℚ) ≤ 101 ∧
    (fetch_usd_exchange_rates 101 (.error "boom") initialCache).2.2 = 1 :=
  ⟨by norm_num [initialCache],
   (claim_fetch_failure_not_cached 100 (.error "boom") initialCache "boom"
     (by norm_num [initialCache]) rfl).1,
   by norm_num,
   (claim_fetch_failure_not_cached 100 (.error "boom") initialCache "boom"
     (by norm_num [initialCache]) rfl).2 101 (.error "boom") (by norm_num)⟩

lemma mem_insertRow (r x : Row) (l : List Row) : r ∈ insertRow x l ↔ r = x ∨ r ∈ l := by
  induction l with
  | nil => simp [insertRow]
  | cons y ys ih =>
    unfold insertRow
    split
    · simp [List.mem_cons]
    · simp only [List.mem_cons, ih]
      tauto

lemma mem_sortRows (r : Row) (l : List Row) : r ∈ sortRows l ↔ r ∈ l := by
  induction l with
  | nil => simp [sortRows]
  | cons x xs ih => simp [sortRows, mem_insertRow, ih, List.mem_cons]

/-- Claim C5: A submitted price string that does not parse as a
non-negative decimal produces the validation error, an empty result list,
an untouched cache and no network call; and concretely "-5" and "abc" are
rejected while "0" parses (to zero, which is accepted). -/
theorem claim_validation (f : FormInput) (now : ℚ) (resp : FetchResp) (cache : Cache) :
    (parsePrice (strip f.price) = none →
      index (some f) now resp cache =
        .ok (⟨some validationMsg, [], strip f.item, strip f.price,
          if f.cryptos.isEmpty then SUPPORTED_CRYPTOS else f.cryptos.map upperStr⟩,
          cache, 0)) ∧
    parsePrice "-5" = none ∧ parsePrice "abc" = none ∧ parsePrice "0" = some ⟨0, 0⟩ := by
  refine ⟨?_, by decide, by decide, by decide⟩
  intro h
  simp only [index, h]

/-- Witness for C5: the handler at item "X", price "abc". -/
theorem claim_validation_witness :
    parsePrice (strip "abc") = none ∧
    index (some ⟨"X", "abc", []⟩) 0 (.ok []) initialCache =
      .ok (⟨some validationMsg, [], "X", "abc", SUPPORTED_CRYPTOS⟩, initialCache, 0) := by
  refine ⟨by decide, ?_⟩
  exact (claim_validation ⟨"X", "abc", []⟩ 0 (.ok []) initialCache).1 (by decide)

/-- Counterexample to claim C7 as stated: For item "Headphones", price "129.99" and
fetched rates BTC → "0.00002", USDC → "1.00013", the handler's USDC
`item_amount` is "130.00" (129.99 × 1.00013 = 130.0068987 truncated at 2
digits), not the "130.01" the claim states, so the claimed result list is
not produced. -/
theorem claim_end_to_end_cex :
    (index (some ⟨"Headphones", "129.99", []⟩) 100
        (.ok [("BTC", "0.00002"), ("USDC", "1.00013")]) initialCache).map
        (fun p => p.1.results) ≠
      .ok [⟨"BTC", "0.00002000", "0.00259980"⟩, ⟨"USDC", "1.00", "130.01"⟩] := by
  have hidx : index (some ⟨"Headphones", "129.99", []⟩) 100
      (.ok [("BTC", "0.00002"), ("USDC", "1.00013")]) initialCache =
      .ok (⟨none,
        [⟨"BTC", "0.00002000", "0.00259980"⟩, ⟨"USDC", "1.00", "130.00"⟩],
        "Headphones", "129.99", SUPPORTED_CRYPTOS⟩,
        ⟨100, [("BTC", ⟨2, 5⟩), ("USDC", ⟨100013, 5⟩)]⟩, 1) := by
    unfold index fetch_usd_exchange_rates
    rw [if_neg (by norm_num [initialCache, CACHE_TTL_SECONDS])]
    rfl
  rw [hidx]
  decide

/-- Claim C7 (amended): For the request item "Headphones", price "129.99",
with fetched rates BTC → "0.00002" and USDC → "1.00013", the handler
produces results sorted by symbol: a BTC row with `usd_rate` "0.00002000"
and `item_amount` "0.00259980", and a USDC row with `usd_rate` "1.00" and
`item_amount` "130.00" (truncated from 130.0068987). -/
theorem claim_end_to_end_headphones :
    index (some ⟨"Headphones", "129.99", []⟩) 100
        (.ok [("BTC", "0.00002"), ("USDC", "1.00013")]) initialCache =
      .ok (⟨none,
        [⟨"BTC", "0.00002000", "0.00259980"⟩, ⟨"USDC", "1.00", "130.00"⟩],
        "Headphones", "129.99", SUPPORTED_CRYPTOS⟩,
        ⟨100, [("BTC", ⟨2, 5⟩), ("USDC", ⟨100013, 5⟩)]⟩, 1) := by
  unfold index fetch_usd_exchange_rates
  rw [if_neg (by norm_num [initialCache, CACHE_TTL_SECONDS])]
  rfl

/-- Claim C8 is false of the program: `format_crypto_amount` runs at
lines 220–221 outside every try/except (the `except` at line 208 wraps
only the fetch), and `amount.quantize(..., ROUND_DOWN)` raises
`decimal.InvalidOperation` under the default 28-digit context when the
quantized coefficient is longer than 28 digits.  Failing input: POST
price `"1" + 30 zeros` (10³⁰, which `Decimal` constructs exactly and
which passes the non-negativity check) with a successful fetch holding
BTC → "0.00002".  This theorem traces it: the price passes validation,
the handler reaches the BTC row and formats the amount 2·10²⁵, and the
quantize that formatting performs overflows the default context (its
coefficient 2·10³³ has 34 > 28 digits), so the real handler dies with
an uncaught exception there instead of rendering the page. -/
theorem claim_handler_uncaught_quantize :
    parsePrice (strip "1000000000000000000000000000000") = some ⟨(10:Int) ^ 30, 0⟩ ∧
    index (some ⟨"X", "1000000000000000000000000000000", ["BTC"]⟩) 100
        (.ok [("BTC", "0.00002")]) initialCache =
      .ok (⟨none,
        [⟨"BTC", format_crypto_amount "BTC" ⟨2, 5⟩,
          format_crypto_amount "BTC" (Dec.mul ⟨(10:Int) ^ 30, 0⟩ ⟨2, 5⟩)⟩],
        "X", "1000000000000000000000000000000", ["BTC"]⟩,
        ⟨100, [("BTC", ⟨2, 5⟩)]⟩, 1) ∧
    quantizeOverflows (Dec.mul ⟨(10:Int) ^ 30, 0⟩ ⟨2, 5⟩) 8 = true := by
  refine ⟨by decide, ?_, by decide⟩
  unfold index fetch_usd_exchange_rates
  rw [if_neg (by norm_num [initialCache, CACHE_TTL_SECONDS])]
  rfl

/-- Claim C9: On a valid submission whose fetch succeeds with rate map `M`,
the result rows are exactly the selected symbols present in `M`: a symbol
appears among the rows' symbols iff it was selected and has a rate —
unselected symbols never appear, and selected symbols missing from `M`
are silently omitted (the handler still returns an error-free page). -/
theorem claim_results_selection (f : FormInput) (now : ℚ) (resp : FetchResp)
    (cache : Cache) (usd : Dec) (M : List (String × Dec)) (c' : Cache) (n : Nat)
    (hp : parsePrice (strip f.price) = some usd)
    (hf : fetch_usd_exchange_rates now resp cache = (.ok M, c', n)) :
    ∃ rows : List Row,
      index (some f) now resp cache =
        .ok (⟨none, rows, strip f.item, strip f.price,
          if f.cryptos.isEmpty then SUPPORTED_CRYPTOS else f.cryptos.map upperStr⟩,
          c', n) ∧
      ∀ sym : String, (∃ r ∈ rows, r.symbol = sym) ↔
        (sym ∈ (if f.cryptos.isEmpty then SUPPORTED_CRYPTOS else f.cryptos.map upperStr) ∧
          (List.lookup sym M).isSome = true) := by
  refine ⟨sortRows ((if f.cryptos.isEmpty then SUPPORTED_CRYPTOS else f.cryptos.map upperStr).filterMap
    (fun sym => (List.lookup sym M).map (fun rate =>
      (⟨sym, format_crypto_amount sym rate,
        format_crypto_amount sym (Dec.mul usd rate)⟩ : Row)))), ?_, ?_⟩
  · simp only [index, hp, hf]
  · intro sym
    constructor
    · rintro ⟨r, hr, rfl⟩
      rw [mem_sortRows] at hr
      obtain ⟨s, hs, heq⟩ := List.mem_filterMap.1 hr
      obtain ⟨rate, hrate, hrow⟩ := Option.map_eq_some'.1 heq
      have hsym : r.symbol = s := by rw [← hrow]
      rw [hsym]
      exact ⟨hs, by rw [hrate]; rfl⟩
    · rintro ⟨hsel, hsome⟩
      obtain ⟨rate, hrate⟩ := Option.isSome_iff_exists.1 hsome
      refine ⟨⟨sym, format_crypto_amount sym rate,
        format_crypto_amount sym (Dec.mul usd rate)⟩, ?_, rfl⟩
      rw [mem_sortRows]
      exact List.mem_filterMap.2 ⟨sym, hsel, by rw [hrate]; rfl⟩

/-- Witness for C9: price "10", only "USDT" selected while the fetched
map holds USDT and BTC; USDT appears, BTC does not. -/
theorem claim_results_selection_witness :
    parsePrice (strip "10") = some ⟨10, 0⟩ ∧
    fetch_usd_exchange_rates 100 (.ok [("USDT", "1.0"), ("BTC", "0.5")]) initialCache =
      (.ok [("USDT", ⟨10, 1⟩), ("BTC", ⟨5, 1⟩)], ⟨100, [("USDT", ⟨10, 1⟩), ("BTC", ⟨5, 1⟩)]⟩, 1) ∧
    ∃ rows : List Row,
      index (some ⟨"X", "10", ["USDT"]⟩) 100
          (.ok [("USDT", "1.0"), ("BTC", "0.5")]) initialCache =
        .ok (⟨none, rows, "X", "10", ["USDT"]⟩,
          ⟨100, [("USDT", ⟨10, 1⟩), ("BTC", ⟨5, 1⟩)]⟩, 1) ∧
      ∀ sym : String, (∃ r ∈ rows, r.symbol = sym) ↔
        (sym ∈ ["USDT"] ∧
          (List.lookup sym [("USDT", (⟨10, 1⟩ : Dec)), ("BTC", ⟨5, 1⟩)]).isSome = true) := by
  have hfetch : fetch_usd_exchange_rates 100 (.ok [("USDT", "1.0"), ("BTC", "0.5")]) initialCache =
      (.ok [("USDT", ⟨10, 1⟩), ("BTC", ⟨5, 1⟩)],
        ⟨100, [("USDT", ⟨10, 1⟩), ("BTC", ⟨5, 1⟩)]⟩, 1) := by
    unfold fetch_usd_exchange_rates
    rw [if_neg (by norm_num [initialCache, CACHE_TTL_SECONDS])]
    rfl
  refine ⟨by decide, hfetch, ?_⟩
  exact claim_results_selection ⟨"X", "10", ["USDT"]⟩ 100
    (.ok [("USDT", "1.0"), ("BTC", "0.5")]) initialCache ⟨10, 0⟩
    [("USDT", ⟨10, 1⟩), ("BTC", ⟨5, 1⟩)] ⟨100, [("USDT", ⟨10, 1⟩), ("BTC", ⟨5, 1⟩)]⟩ 1
    (by decide) hfetch

/-- Claim C10: `format_crypto_amount` is case-insensitive in its symbol
argument: formatting with `sym` gives the same string as formatting with
the uppercased symbol, because the symbol is uppercased before the
precision lookup. -/
theorem claim_format_case_insensitive (sym : String) (a : Dec) :
    format_crypto_amount sym a = format_crypto_amount (upperStr sym) a := by
  unfold format_crypto_amount
  rw [upperStr_idem]

end Website

